import Mathlib

set_option maxRecDepth 100000

/-!
Verification of MiniOS (`src/minios/kernel.c`).

The development shallowly embeds the kernel's data structures and
operations as executable Lean functions: the interrupt-driven keyboard
ring buffer, the VGA terminal renderer, the integer formatting helpers,
the in-memory file store, the line editor step, the shell command
interpreter, and the interrupt-controller port protocol.  C strings are
represented as `List Char` holding the characters before the NUL
terminator (all names and lines handled by the kernel are NUL-free);
machine integers are `Nat`/`Int` with explicit `% 2 ^ 32` where overflow
matters.  Each theorem below settles one specified property of the code.
-/

/-! ### Constants from kernel.c -/

def KBUF_SIZE : Nat := 256
def VGA_WIDTH : Nat := 80
def VGA_HEIGHT : Nat := 25
def MAX_FILES : Nat := 16
def MAX_NAME : Nat := 16
def MAX_FILE_SIZE : Nat := 512
def INPUT_BUF : Nat := 128

/-- The NUL character, i.e. the C string terminator / zero sentinel. -/
def nulc : Char := Char.ofNat 0

/-- Pointwise update of a memory modelled as a function `Nat → α`
(`m[i] = v` in C). -/
def setAt {α : Type} (f : Nat → α) (i : Nat) (v : α) : Nat → α :=
  fun j => if j = i then v else f j

theorem setAt_same {α : Type} (f : Nat → α) (i : Nat) (v : α) : setAt f i v i = v := by
  simp [setAt]

theorem setAt_other {α : Type} (f : Nat → α) (i j : Nat) (v : α) (h : j ≠ i) :
    setAt f i v j = f j := by
  simp [setAt, h]

/-! ### Keyboard ring buffer (kernel.c lines 122-213)

State of the circular buffer `kbuf` with its `kbuf_head` / `kbuf_tail`
indices.  `keyboard_handler` is the enqueue step performed at lines
203-204 once the scancode has been decoded to a character `c` (the early
returns for key releases and unmapped scancodes push nothing, so a run
of the queue is driven by the decoded characters).
`keyboard_getchar_irq` is called only after the busy-wait
`while (kbuf_head == kbuf_tail)` has finished, i.e. on a non-empty
queue; the dequeue step itself is embedded below. -/

structure KBuf where
  buf : Nat → Char
  head : Nat
  tail : Nat

/-- Enqueue step of `keyboard_handler` (kernel.c lines 203-204):
drop the character if advancing `head` would hit `tail`, otherwise
store it at `head` and advance `head` modulo `KBUF_SIZE`. -/
def keyboard_handler (s : KBuf) (c : Char) : KBuf :=
  if (s.head + 1) % KBUF_SIZE ≠ s.tail then
    { s with buf := setAt s.buf s.head c, head := (s.head + 1) % KBUF_SIZE }
  else s

/-- Dequeue step of `keyboard_getchar_irq` (kernel.c lines 210-212). -/
def keyboard_getchar_irq (s : KBuf) : Char × KBuf :=
  (s.buf s.tail, { s with tail := (s.tail + 1) % KBUF_SIZE })

/-- Number of pending (pushed but not yet popped) characters. -/
def kpending (s : KBuf) : Nat := (s.head + KBUF_SIZE - s.tail) % KBUF_SIZE

/-- The pending characters of the queue, oldest first. -/
def kelems (s : KBuf) : List Char :=
  (List.range (kpending s)).map fun i => s.buf ((s.tail + i) % KBUF_SIZE)

/-- One interleaving step: an interrupt-context push of a decoded
character, or a foreground pop. -/
inductive KOp where
  | push : Char → KOp
  | pop : KOp
deriving DecidableEq

/-- The characters pushed by a schedule, in order. -/
def pushedChars : List KOp → List Char
  | [] => []
  | KOp.push c :: ops => c :: pushedChars ops
  | KOp.pop :: ops => pushedChars ops

/-- Run a schedule of pushes and pops against the ring buffer,
collecting the popped characters in order. -/
def krun (s : KBuf) : List KOp → KBuf × List Char
  | [] => (s, [])
  | KOp.push c :: ops => krun (keyboard_handler s c) ops
  | KOp.pop :: ops =>
    let p := keyboard_getchar_irq s
    let r := krun p.2 ops
    (r.1, p.1 :: r.2)

/-- Well-formed schedules, tracking the pending count: a push happens
only while fewer than `KBUF_SIZE - 1` characters are pending (the claim's
side condition), and a pop only fires once the busy-wait has seen a
non-empty queue. -/
def wfOps : Nat → List KOp → Bool
  | _, [] => true
  | n, KOp.push _ :: ops => decide (n < KBUF_SIZE - 1) && wfOps (n + 1) ops
  | n, KOp.pop :: ops => decide (0 < n) && wfOps (n - 1) ops

theorem kelems_length (s : KBuf) : (kelems s).length = kpending s := by
  simp [kelems]

theorem kpending_lt (s : KBuf) : kpending s < KBUF_SIZE := by
  have h : (0:Nat) < KBUF_SIZE := by decide
  exact Nat.mod_lt _ h

theorem kpush_elems (s : KBuf) (c : Char) (hh : s.head < KBUF_SIZE) (ht : s.tail < KBUF_SIZE)
    (hp : kpending s < KBUF_SIZE - 1) :
    kelems (keyboard_handler s c) = kelems s ++ [c] ∧
    (keyboard_handler s c).head < KBUF_SIZE ∧ (keyboard_handler s c).tail = s.tail := by
  simp only [KBUF_SIZE] at hh ht
  simp only [kpending, KBUF_SIZE] at hp
  have hne : (s.head + 1) % KBUF_SIZE ≠ s.tail := by
    simp only [KBUF_SIZE]
    omega
  have hdef : keyboard_handler s c =
      { s with buf := setAt s.buf s.head c, head := (s.head + 1) % KBUF_SIZE } := by
    rw [keyboard_handler, if_pos hne]
  have hpend : kpending (keyboard_handler s c) = kpending s + 1 := by
    rw [hdef]
    simp only [kpending, KBUF_SIZE]
    omega
  refine ⟨?_, ?_, ?_⟩
  · rw [kelems, hpend, List.range_succ, List.map_append]
    congr 1
    · rw [kelems]
      refine List.map_congr_left ?_
      intro i hi
      rw [List.mem_range] at hi
      simp only [kpending, KBUF_SIZE] at hi
      rw [hdef]
      show setAt s.buf s.head c ((s.tail + i) % KBUF_SIZE) = s.buf ((s.tail + i) % KBUF_SIZE)
      refine setAt_other _ _ _ _ ?_
      simp only [KBUF_SIZE]
      omega
    · simp only [List.map_cons, List.map_nil]
      congr 1
      have hidx : ((keyboard_handler s c).tail + kpending s) % KBUF_SIZE = s.head := by
        rw [hdef]
        show (s.tail + kpending s) % KBUF_SIZE = s.head
        simp only [kpending, KBUF_SIZE]
        omega
      rw [hidx, hdef]
      exact setAt_same _ _ _
  · rw [hdef]
    show (s.head + 1) % KBUF_SIZE < KBUF_SIZE
    simp only [KBUF_SIZE]
    omega
  · rw [hdef]

theorem kpop_elems (s : KBuf) (hh : s.head < KBUF_SIZE) (ht : s.tail < KBUF_SIZE)
    (hp : 0 < kpending s) :
    kelems s = (keyboard_getchar_irq s).1 :: kelems (keyboard_getchar_irq s).2 ∧
    (keyboard_getchar_irq s).2.head = s.head ∧
    (keyboard_getchar_irq s).2.tail < KBUF_SIZE := by
  simp only [KBUF_SIZE] at hh ht
  obtain ⟨q, hq⟩ : ∃ q, kpending s = q + 1 := ⟨kpending s - 1, by omega⟩
  have hq255 : q + 1 < 256 := by
    have := kpending_lt s
    simp only [KBUF_SIZE] at this
    omega
  refine ⟨?_, rfl, ?_⟩
  · have hpend2 : kpending (keyboard_getchar_irq s).2 = q := by
      simp only [keyboard_getchar_irq, kpending, KBUF_SIZE] at hq ⊢
      omega
    rw [kelems, hq, List.range_succ_eq_map, List.map_cons, List.map_map]
    congr 1
    · show s.buf ((s.tail + 0) % KBUF_SIZE) = (keyboard_getchar_irq s).1
      simp only [keyboard_getchar_irq, KBUF_SIZE]
      rw [Nat.add_zero, Nat.mod_eq_of_lt ht]
    · rw [kelems, hpend2]
      refine List.map_congr_left ?_
      intro i hi
      rw [List.mem_range] at hi
      show s.buf ((s.tail + Nat.succ i) % KBUF_SIZE) =
        (keyboard_getchar_irq s).2.buf (((keyboard_getchar_irq s).2.tail + i) % KBUF_SIZE)
      simp only [keyboard_getchar_irq, KBUF_SIZE]
      congr 1
      omega
  · simp only [keyboard_getchar_irq, KBUF_SIZE]
    omega

theorem krun_fifo (ops : List KOp) : ∀ s : KBuf, s.head < KBUF_SIZE → s.tail < KBUF_SIZE →
    wfOps (kpending s) ops = true →
    (krun s ops).2 ++ kelems (krun s ops).1 = kelems s ++ pushedChars ops := by
  induction ops with
  | nil => intro s _ _ _; simp [krun, pushedChars]
  | cons op ops ih =>
    cases op with
    | push c =>
      intro s hh ht hwf
      rw [wfOps, Bool.and_eq_true, decide_eq_true_eq] at hwf
      obtain ⟨hlt, hwf⟩ := hwf
      obtain ⟨he, hh', ht'⟩ := kpush_elems s c hh ht hlt
      have hpend' : kpending (keyboard_handler s c) = kpending s + 1 := by
        have h1 := kelems_length (keyboard_handler s c)
        have h2 := kelems_length s
        rw [he] at h1
        simp only [List.length_append, List.length_cons, List.length_nil] at h1
        omega
      have ihh := ih (keyboard_handler s c) hh' (ht' ▸ ht) (by rw [hpend']; exact hwf)
      show (krun (keyboard_handler s c) ops).2 ++ kelems (krun (keyboard_handler s c) ops).1 =
        kelems s ++ pushedChars (KOp.push c :: ops)
      rw [ihh, he, pushedChars, List.append_assoc, List.singleton_append]
    | pop =>
      intro s hh ht hwf
      rw [wfOps, Bool.and_eq_true, decide_eq_true_eq] at hwf
      obtain ⟨hpos, hwf⟩ := hwf
      obtain ⟨he, hh', ht'⟩ := kpop_elems s hh ht hpos
      have hpend' : kpending (keyboard_getchar_irq s).2 = kpending s - 1 := by
        have h1 := kelems_length (keyboard_getchar_irq s).2
        have h2 := kelems_length s
        rw [he] at h2
        simp only [List.length_cons] at h2
        omega
      have ihh := ih (keyboard_getchar_irq s).2 (hh' ▸ hh) ht'
        (by rw [hpend']; exact hwf)
      show ((keyboard_getchar_irq s).1 :: (krun (keyboard_getchar_irq s).2 ops).2) ++
          kelems (krun (keyboard_getchar_irq s).2 ops).1 =
        kelems s ++ pushedChars (KOp.pop :: ops)
      rw [List.cons_append, ihh, he, pushedChars, List.cons_append]

/-- The keyboard buffer right after `interrupts_install` resets
`kbuf_head = kbuf_tail = 0` (the static array is zero-initialised). -/
def kbuf0 : KBuf := ⟨fun _ => nulc, 0, 0⟩

/-- C1: for every schedule of `keyboard_handler` pushes interleaved with
`keyboard_getchar_irq` pops in which the pending count never exceeds
`KBUF_SIZE - 1` (and each pop fires on a non-empty queue, as the pop
busy-waits otherwise), the popped characters followed by the characters
still pending are exactly the pushed characters in push order — the
queue is strictly FIFO. -/
theorem keyboard_queue_fifo (ops : List KOp) (hwf : wfOps 0 ops = true) :
    (krun kbuf0 ops).2 ++ kelems (krun kbuf0 ops).1 = pushedChars ops := by
  have h0 : kpending kbuf0 = 0 := by decide
  have h := krun_fifo ops kbuf0 (by decide) (by decide) (by rw [h0]; exact hwf)
  have he : kelems kbuf0 = [] := by decide
  rw [he, List.nil_append] at h
  exact h

theorem keyboard_queue_fifo_wit :
    (krun kbuf0 [KOp.push 'a', KOp.push 'b', KOp.pop, KOp.push 'c', KOp.pop, KOp.pop]).2 ++
      kelems (krun kbuf0 [KOp.push 'a', KOp.push 'b', KOp.pop, KOp.push 'c',
        KOp.pop, KOp.pop]).1 =
      pushedChars [KOp.push 'a', KOp.push 'b', KOp.pop, KOp.push 'c', KOp.pop, KOp.pop] :=
  keyboard_queue_fifo _ (by decide)

/-- C2: pushing into a full queue (advancing `kbuf_head` by one modulo
`KBUF_SIZE` would equal `kbuf_tail`) leaves the whole queue state —
buffer contents, head and tail — unchanged, dropping the character;
pushing into a non-full queue stores the character at the head slot and
advances `kbuf_head` by one modulo `KBUF_SIZE`. -/
theorem keyboard_push_drop (s : KBuf) (c : Char) :
    ((s.head + 1) % KBUF_SIZE = s.tail → keyboard_handler s c = s) ∧
    ((s.head + 1) % KBUF_SIZE ≠ s.tail →
      keyboard_handler s c =
        { buf := setAt s.buf s.head c, head := (s.head + 1) % KBUF_SIZE, tail := s.tail }) := by
  constructor
  · intro h
    rw [keyboard_handler, if_neg (by simpa using h)]
  · intro h
    rw [keyboard_handler, if_pos h]

/-- A concrete full queue: head 5, tail 6, `(5+1) % 256 = 6`. -/
def kbufFull : KBuf := ⟨fun _ => nulc, 5, 6⟩

/-- A concrete non-full queue: head 2, tail 7. -/
def kbufRoom : KBuf := ⟨fun _ => nulc, 2, 7⟩

theorem keyboard_push_drop_wit :
    keyboard_handler kbufFull 'x' = kbufFull ∧
    keyboard_handler kbufRoom 'x' =
      { buf := setAt kbufRoom.buf kbufRoom.head 'x',
        head := (kbufRoom.head + 1) % KBUF_SIZE, tail := kbufRoom.tail } :=
  ⟨(keyboard_push_drop kbufFull 'x').1 (by decide),
   (keyboard_push_drop kbufRoom 'x').2 (by decide)⟩

/-! ### VGA terminal renderer (kernel.c lines 19-77)

The screen is the memory-mapped cell array at `0xB8000`, modelled as a
function from cell index to 16-bit cell value.  Each operation is
instrumented to also return the list of cell indices it writes, so that
the bounds of every write can be stated.  `update_cursor` only performs
port I/O (no cell write, no cursor-state change) and is not modelled. -/

structure Term where
  buf : Nat → Nat
  row : Nat
  col : Nat
  color : Nat

/-- A 16-bit VGA cell: low byte character code, high byte attribute. -/
def cellVal (c : Char) (color : Nat) : Nat := c.toNat ||| (color <<< 8)

/-- One store `vga_buffer[idx] = v`, recorded in the write log. -/
def wcell (s : Term × List Nat) (idx v : Nat) : Term × List Nat :=
  ({ s.1 with buf := setAt s.1.buf idx v }, s.2 ++ [idx])

/-- `vga_putat` (kernel.c lines 34-37). -/
def vga_putat (t : Term) (c : Char) (color row col : Nat) : Term × List Nat :=
  wcell (t, []) (row * VGA_WIDTH + col) (cellVal c color)

/-- Inner copy loop of `vga_scroll`: row `r` receives row `r + 1`. -/
def scrollInner (r : Nat) (acc : Term × List Nat) : Term × List Nat :=
  (List.range VGA_WIDTH).foldl (fun acc2 c =>
    wcell acc2 (r * VGA_WIDTH + c) (acc2.1.buf ((r + 1) * VGA_WIDTH + c))) acc

/-- `vga_scroll` (kernel.c lines 39-48): copy every row up by one, then
blank the last row. -/
def vga_scroll (t : Term) : Term × List Nat :=
  (List.range VGA_WIDTH).foldl (fun acc c =>
    wcell acc ((VGA_HEIGHT - 1) * VGA_WIDTH + c) (cellVal ' ' t.color))
    ((List.range (VGA_HEIGHT - 1)).foldl (fun acc r => scrollInner r acc) (t, []))

/-- `vga_putc` (kernel.c lines 50-66).  `'\x08'` is the C `'\b'`. -/
def vga_putc (t : Term) (c : Char) : Term × List Nat :=
  if c = '\n' then
    if t.row + 1 = VGA_HEIGHT then vga_scroll { t with col := 0, row := VGA_HEIGHT - 1 }
    else ({ t with col := 0, row := t.row + 1 }, [])
  else if c = '\r' then ({ t with col := 0 }, [])
  else if c = '\x08' then
    if 0 < t.col then vga_putat { t with col := t.col - 1 } ' ' t.color t.row (t.col - 1)
    else (t, [])
  else
    let s1 := vga_putat t c t.color t.row t.col
    if VGA_WIDTH ≤ s1.1.col + 1 then
      if s1.1.row + 1 = VGA_HEIGHT then
        let s2 := vga_scroll { s1.1 with col := 0, row := VGA_HEIGHT - 1 }
        (s2.1, s1.2 ++ s2.2)
      else ({ s1.1 with col := 0, row := s1.1.row + 1 }, s1.2)
    else ({ s1.1 with col := s1.1.col + 1 }, s1.2)

/-- `vga_clear` (kernel.c lines 72-77): blank the whole grid, cursor to
the origin. -/
def vga_clear (t : Term) : Term × List Nat :=
  let s1 := (List.range (VGA_WIDTH * VGA_HEIGHT)).foldl
    (fun acc i => wcell acc i (cellVal ' ' t.color)) (t, [])
  ({ s1.1 with row := 0, col := 0 }, s1.2)

theorem foldl_wcell_writes {α : Type} (step : Term × List Nat → α → Term × List Nat)
    (ws : α → List Nat) (h : ∀ s x, (step s x).2 = s.2 ++ ws x) :
    ∀ (l : List α) (s : Term × List Nat), (l.foldl step s).2 = s.2 ++ l.flatMap ws := by
  intro l
  induction l with
  | nil => intro s; simp
  | cons x l ih =>
    intro s
    rw [List.foldl_cons, ih, h, List.flatMap_cons, List.append_assoc]

theorem foldl_wcell_rowcol {α : Type} (step : Term × List Nat → α → Term × List Nat)
    (h : ∀ s x, (step s x).1.row = s.1.row ∧ (step s x).1.col = s.1.col) :
    ∀ (l : List α) (s : Term × List Nat),
      (l.foldl step s).1.row = s.1.row ∧ (l.foldl step s).1.col = s.1.col := by
  intro l
  induction l with
  | nil => intro s; exact ⟨rfl, rfl⟩
  | cons x l ih =>
    intro s
    rw [List.foldl_cons]
    obtain ⟨h1, h2⟩ := ih (step s x)
    obtain ⟨h3, h4⟩ := h s x
    exact ⟨h1.trans h3, h2.trans h4⟩

theorem scrollInner_writes (r : Nat) (s : Term × List Nat) :
    (scrollInner r s).2 = s.2 ++ (List.range VGA_WIDTH).flatMap (fun c => [r * VGA_WIDTH + c]) :=
  foldl_wcell_writes _ _ (fun _ _ => rfl) (List.range VGA_WIDTH) s

theorem scrollInner_rowcol (r : Nat) (s : Term × List Nat) :
    (scrollInner r s).1.row = s.1.row ∧ (scrollInner r s).1.col = s.1.col :=
  foldl_wcell_rowcol _ (fun _ _ => ⟨rfl, rfl⟩) (List.range VGA_WIDTH) s

theorem vga_scroll_writes (t : Term) : (vga_scroll t).2 =
    (List.range (VGA_HEIGHT - 1)).flatMap
      (fun r => (List.range VGA_WIDTH).flatMap (fun c => [r * VGA_WIDTH + c])) ++
    (List.range VGA_WIDTH).flatMap (fun c => [(VGA_HEIGHT - 1) * VGA_WIDTH + c]) := by
  rw [vga_scroll]
  rw [foldl_wcell_writes (fun acc c =>
    wcell acc ((VGA_HEIGHT - 1) * VGA_WIDTH + c) (cellVal ' ' t.color))
    (fun c => [(VGA_HEIGHT - 1) * VGA_WIDTH + c]) (fun _ _ => rfl)]
  rw [foldl_wcell_writes (fun acc r => scrollInner r acc)
    (fun r => (List.range VGA_WIDTH).flatMap (fun c => [r * VGA_WIDTH + c]))
    (fun s r => scrollInner_writes r s)]
  rw [List.nil_append]

theorem vga_scroll_writes_lt (t : Term) : ∀ i ∈ (vga_scroll t).2, i < VGA_WIDTH * VGA_HEIGHT := by
  intro i hi
  rw [vga_scroll_writes] at hi
  simp only [List.mem_append, List.mem_flatMap, List.mem_range, List.mem_singleton] at hi
  simp only [VGA_WIDTH, VGA_HEIGHT] at hi ⊢
  rcases hi with ⟨r, hr, c, hc, rfl⟩ | ⟨c, hc, rfl⟩ <;> omega

theorem vga_scroll_rowcol (t : Term) :
    (vga_scroll t).1.row = t.row ∧ (vga_scroll t).1.col = t.col := by
  rw [vga_scroll]
  have h1 := foldl_wcell_rowcol (fun acc c =>
    wcell acc ((VGA_HEIGHT - 1) * VGA_WIDTH + c) (cellVal ' ' t.color))
    (fun _ _ => ⟨rfl, rfl⟩) (List.range VGA_WIDTH)
    ((List.range (VGA_HEIGHT - 1)).foldl (fun acc r => scrollInner r acc) (t, []))
  have h2 := foldl_wcell_rowcol (fun acc r => scrollInner r acc)
    (fun s r => scrollInner_rowcol r s) (List.range (VGA_HEIGHT - 1)) (t, [])
  exact ⟨h1.1.trans h2.1, h1.2.trans h2.2⟩

theorem vga_clear_writes_lt (t : Term) : ∀ i ∈ (vga_clear t).2, i < VGA_WIDTH * VGA_HEIGHT := by
  intro i hi
  have h : (vga_clear t).2 =
      (List.range (VGA_WIDTH * VGA_HEIGHT)).flatMap (fun i => [i]) := by
    show ((List.range (VGA_WIDTH * VGA_HEIGHT)).foldl
      (fun acc i => wcell acc i (cellVal ' ' t.color)) (t, [])).2 = _
    rw [foldl_wcell_writes (fun acc i => wcell acc i (cellVal ' ' t.color))
      (fun i => [i]) (fun _ _ => rfl)]
    rw [List.nil_append]
  rw [h] at hi
  simp only [List.mem_flatMap, List.mem_range, List.mem_singleton] at hi
  obtain ⟨j, hj, rfl⟩ := hi
  exact hj

/-- C7: from any state with the cursor in bounds (`term_row < VGA_HEIGHT`,
`term_col < VGA_WIDTH`), `vga_putc` on any byte, `vga_clear` and
`vga_scroll` keep the cursor in bounds, and every cell index these
operations write lies inside the `VGA_WIDTH * VGA_HEIGHT` grid. -/
theorem vga_cursor_invariant (t : Term) (c : Char)
    (hr : t.row < VGA_HEIGHT) (hc : t.col < VGA_WIDTH) :
    ((vga_putc t c).1.row < VGA_HEIGHT ∧ (vga_putc t c).1.col < VGA_WIDTH ∧
      ∀ i ∈ (vga_putc t c).2, i < VGA_WIDTH * VGA_HEIGHT) ∧
    ((vga_clear t).1.row < VGA_HEIGHT ∧ (vga_clear t).1.col < VGA_WIDTH ∧
      ∀ i ∈ (vga_clear t).2, i < VGA_WIDTH * VGA_HEIGHT) ∧
    ((vga_scroll t).1.row < VGA_HEIGHT ∧ (vga_scroll t).1.col < VGA_WIDTH ∧
      ∀ i ∈ (vga_scroll t).2, i < VGA_WIDTH * VGA_HEIGHT) := by
  refine ⟨?_, ⟨?_, ?_, vga_clear_writes_lt t⟩, ?_⟩
  · rw [vga_putc]
    by_cases h1 : c = '\n'
    · rw [if_pos h1]
      by_cases h2 : t.row + 1 = VGA_HEIGHT
      · rw [if_pos h2]
        obtain ⟨hr', hc'⟩ := vga_scroll_rowcol { t with col := 0, row := VGA_HEIGHT - 1 }
        refine ⟨?_, ?_, vga_scroll_writes_lt _⟩
        · rw [hr']
          show VGA_HEIGHT - 1 < VGA_HEIGHT
          decide
        · rw [hc']
          show (0:Nat) < VGA_WIDTH
          decide
      · rw [if_neg h2]
        refine ⟨?_, ?_, ?_⟩
        · show t.row + 1 < VGA_HEIGHT
          exact Nat.lt_of_le_of_ne (Nat.succ_le_of_lt hr) h2
        · show (0:Nat) < VGA_WIDTH
          decide
        · intro i hi
          simp only [List.mem_nil_iff] at hi
    · rw [if_neg h1]
      by_cases h2 : c = '\r'
      · rw [if_pos h2]
        refine ⟨hr, ?_, ?_⟩
        · show (0:Nat) < VGA_WIDTH
          decide
        · intro i hi
          simp only [List.mem_nil_iff] at hi
      · rw [if_neg h2]
        by_cases h3 : c = '\x08'
        · rw [if_pos h3]
          by_cases h4 : 0 < t.col
          · rw [if_pos h4]
            refine ⟨hr, ?_, ?_⟩
            · show t.col - 1 < VGA_WIDTH
              exact Nat.lt_of_le_of_lt (Nat.sub_le _ _) hc
            · intro i hi
              simp only [vga_putat, wcell, List.nil_append, List.mem_singleton] at hi
              subst hi
              show t.row * VGA_WIDTH + (t.col - 1) < VGA_WIDTH * VGA_HEIGHT
              simp only [VGA_WIDTH, VGA_HEIGHT] at hr hc ⊢
              omega
          · rw [if_neg h4]
            refine ⟨hr, hc, ?_⟩
            intro i hi
            simp only [List.mem_nil_iff] at hi
        · rw [if_neg h3]
          simp only [vga_putat, wcell, List.nil_append]
          by_cases h4 : VGA_WIDTH ≤ t.col + 1
          · rw [if_pos h4]
            by_cases h5 : t.row + 1 = VGA_HEIGHT
            · rw [if_pos h5]
              obtain ⟨hr', hc'⟩ := vga_scroll_rowcol
                { buf := setAt t.buf (t.row * VGA_WIDTH + t.col) (cellVal c t.color),
                  row := VGA_HEIGHT - 1, col := 0, color := t.color }
              refine ⟨?_, ?_, ?_⟩
              · rw [hr']
                show VGA_HEIGHT - 1 < VGA_HEIGHT
                decide
              · rw [hc']
                show (0:Nat) < VGA_WIDTH
                decide
              · intro i hi
                simp only [List.mem_append, List.mem_singleton] at hi
                rcases hi with rfl | hi
                · show t.row * VGA_WIDTH + t.col < VGA_WIDTH * VGA_HEIGHT
                  simp only [VGA_WIDTH, VGA_HEIGHT] at hr hc ⊢
                  omega
                · exact vga_scroll_writes_lt _ i hi
            · rw [if_neg h5]
              refine ⟨?_, ?_, ?_⟩
              · show t.row + 1 < VGA_HEIGHT
                exact Nat.lt_of_le_of_ne (Nat.succ_le_of_lt hr) h5
              · show (0:Nat) < VGA_WIDTH
                decide
              · intro i hi
                simp only [List.mem_singleton] at hi
                subst hi
                show t.row * VGA_WIDTH + t.col < VGA_WIDTH * VGA_HEIGHT
                simp only [VGA_WIDTH, VGA_HEIGHT] at hr hc ⊢
                omega
          · rw [if_neg h4]
            refine ⟨hr, ?_, ?_⟩
            · show t.col + 1 < VGA_WIDTH
              omega
            · intro i hi
              simp only [List.mem_singleton] at hi
              subst hi
              show t.row * VGA_WIDTH + t.col < VGA_WIDTH * VGA_HEIGHT
              simp only [VGA_WIDTH, VGA_HEIGHT] at hr hc ⊢
              omega
  · show (0:Nat) < VGA_HEIGHT
    decide
  · show (0:Nat) < VGA_WIDTH
    decide
  · obtain ⟨hr', hc'⟩ := vga_scroll_rowcol t
    exact ⟨hr' ▸ hr, hc' ▸ hc, vga_scroll_writes_lt t⟩

theorem vga_cursor_invariant_wit :
    ((vga_putc ⟨fun _ => 0, 24, 79, 7⟩ 'a').1.row < VGA_HEIGHT ∧
      (vga_putc ⟨fun _ => 0, 24, 79, 7⟩ 'a').1.col < VGA_WIDTH ∧
      ∀ i ∈ (vga_putc ⟨fun _ => 0, 24, 79, 7⟩ 'a').2, i < VGA_WIDTH * VGA_HEIGHT) ∧
    ((vga_clear ⟨fun _ => 0, 24, 79, 7⟩).1.row < VGA_HEIGHT ∧
      (vga_clear ⟨fun _ => 0, 24, 79, 7⟩).1.col < VGA_WIDTH ∧
      ∀ i ∈ (vga_clear ⟨fun _ => 0, 24, 79, 7⟩).2, i < VGA_WIDTH * VGA_HEIGHT) ∧
    ((vga_scroll ⟨fun _ => 0, 24, 79, 7⟩).1.row < VGA_HEIGHT ∧
      (vga_scroll ⟨fun _ => 0, 24, 79, 7⟩).1.col < VGA_WIDTH ∧
      ∀ i ∈ (vga_scroll ⟨fun _ => 0, 24, 79, 7⟩).2, i < VGA_WIDTH * VGA_HEIGHT) :=
  vga_cursor_invariant ⟨fun _ => 0, 24, 79, 7⟩ 'a' (by decide) (by decide)
/-! ### Integer formatting (kernel.c lines 79-94) -/

/-- Digit character of `kputu`: `(d < 10) ? ('0' + d) : ('a' + d - 10)`. -/
def kdigitChar (d : Nat) : Char :=
  if d < 10 then Char.ofNat ('0'.toNat + d) else Char.ofNat ('a'.toNat + d - 10)

/-- The `while (val)` loop of `kputu`, collecting digits least
significant first; the fuel `33` is the size of the local `char buf[33]`
(never exhausted for 32-bit values in any base `≥ 2`). -/
def kputuLoop : Nat → Nat → Nat → List Char
  | 0, _, _ => []
  | fuel + 1, val, base =>
    if val = 0 then [] else kdigitChar (val % base) :: kputuLoop fuel (val / base) base

/-- `kputu` (kernel.c lines 80-89): emit `'0'` for zero, otherwise the
collected digits in reverse (most significant first). -/
def kputu (val base : Nat) : List Char :=
  if val = 0 then ['0'] else (kputuLoop 33 val base).reverse

/-- `kputi` (kernel.c lines 91-94): a leading `'-'` and the magnitude for
negative values; the C cast `(uint32_t)(-val)` is negation modulo `2 ^ 32`. -/
def kputi (val : Int) (base : Nat) : List Char :=
  if val < 0 then '-' :: kputu ((-val).toNat % 2 ^ 32) base
  else kputu (val.toNat % 2 ^ 32) base

theorem kputuLoop_digits (base : Nat) (hb : 2 ≤ base) :
    ∀ fuel val, (Nat.digits base val).length ≤ fuel →
      kputuLoop fuel val base = (Nat.digits base val).map kdigitChar := by
  intro fuel
  induction fuel with
  | zero =>
    intro val h
    have h0 : Nat.digits base val = [] := List.eq_nil_of_length_eq_zero (Nat.le_zero.mp h)
    rw [kputuLoop, h0, List.map_nil]
  | succ fuel ih =>
    intro val h
    by_cases hv : val = 0
    · subst hv
      rw [kputuLoop, if_pos rfl, Nat.digits_zero, List.map_nil]
    · have hb1 : 1 < base := by omega
      have hv0 : 0 < val := Nat.pos_of_ne_zero hv
      rw [kputuLoop, if_neg hv, Nat.digits_def' hb1 hv0, List.map_cons]
      congr 1
      refine ih _ ?_
      rw [Nat.digits_def' hb1 hv0, List.length_cons] at h
      omega

theorem digits_len_le33 (base val : Nat) (hb : 2 ≤ base) (hv : val < 2 ^ 32) :
    (Nat.digits base val).length ≤ 33 := by
  by_cases hv0 : val = 0
  · subst hv0
    simp
  · rw [Nat.digits_len base val (by omega) hv0]
    have h1 : Nat.log base val ≤ Nat.log 2 val := Nat.log_anti_left (by omega) hb
    have h2 : Nat.log 2 val < 32 := Nat.log_lt_of_lt_pow hv0 hv
    omega

/-- C8: for every 32-bit value, `kputu` emits exactly the base-`b` digits
of the value (obtained by repeated division, collected least significant
first into the local buffer and emitted in reverse), with `'0'`
special-cased for zero; and for every negative 32-bit integer — including
`-2147483648`, whose negation the cast `(uint32_t)(-val)` takes modulo
`2 ^ 32` — `kputi` emits `'-'` followed by the decimal digits of the
magnitude. -/
theorem kputu_kputi_digits (val : Nat) (base : Nat) (v : Int)
    (hval : val < 2 ^ 32) (hb : 2 ≤ base) (hv1 : -(2 ^ 31) ≤ v) (hv2 : v < 0) :
    kputu val base =
      (if val = 0 then ['0'] else ((Nat.digits base val).map kdigitChar).reverse) ∧
    kputi v 10 = '-' :: ((Nat.digits 10 v.natAbs).map kdigitChar).reverse := by
  constructor
  · by_cases h : val = 0
    · rw [kputu, if_pos h, if_pos h]
    · rw [kputu, if_neg h, if_neg h,
        kputuLoop_digits base hb 33 val (digits_len_le33 base val hb hval)]
  · rw [kputi, if_pos hv2]
    have h1 : (-v).toNat = v.natAbs := by omega
    have h2 : v.natAbs < 2 ^ 32 := by
      have hp : (2:Int) ^ 31 = 2147483648 := by norm_num
      rw [hp] at hv1
      omega
    have h3 : v.natAbs ≠ 0 := by omega
    rw [h1, Nat.mod_eq_of_lt h2, kputu, if_neg h3,
      kputuLoop_digits 10 (by omega) 33 v.natAbs (digits_len_le33 10 v.natAbs (by omega) h2)]

theorem kputu_kputi_digits_wit :
    kputu 3735928559 16 =
      (if (3735928559:Nat) = 0 then ['0']
       else ((Nat.digits 16 3735928559).map kdigitChar).reverse) ∧
    kputi (-2147483648) 10 =
      '-' :: ((Nat.digits 10 (Int.natAbs (-2147483648))).map kdigitChar).reverse :=
  kputu_kputi_digits 3735928559 16 (-2147483648)
    (by norm_num) (by norm_num) (by norm_num) (by norm_num)

/-! ### Interrupt controller protocol (kernel.c lines 172-193)

Port I/O is modelled as a latch function (the value currently readable
at each port — after a write, the byte just written) plus a trace of the
reads and writes performed, in order. -/

inductive PortEvent where
  | rd : Nat → Nat → PortEvent
  | wr : Nat → Nat → PortEvent
deriving DecidableEq

structure PortState where
  latch : Nat → Nat
  trace : List PortEvent

/-- `inb`: read the latched value of a port, recording the read. -/
def inb (p : Nat) (io : PortState) : Nat × PortState :=
  (io.latch p, { io with trace := io.trace ++ [PortEvent.rd p (io.latch p)] })

/-- `outb`: write a byte to a port; it becomes the port's latched value. -/
def outb (p v : Nat) (io : PortState) : PortState :=
  { latch := setAt io.latch p v, trace := io.trace ++ [PortEvent.wr p v] }

/-- `pic_remap` (kernel.c lines 172-187). -/
def pic_remap (io : PortState) : PortState :=
  let r1 := inb 0x21 io
  let r2 := inb 0xA1 r1.2
  let io3 := outb 0x20 0x11 r2.2
  let io4 := outb 0xA0 0x11 io3
  let io5 := outb 0x21 0x20 io4
  let io6 := outb 0xA1 0x28 io5
  let io7 := outb 0x21 4 io6
  let io8 := outb 0xA1 2 io7
  let io9 := outb 0x21 0x01 io8
  let io10 := outb 0xA1 0x01 io9
  let io11 := outb 0x21 r1.1 io10
  outb 0xA1 r2.1 io11

/-- `pic_unmask_keyboard` (kernel.c lines 189-193): `mask &= ~(1 << 1)`
on a `uint8_t` is `mask &&& 0xFD`. -/
def pic_unmask_keyboard (io : PortState) : PortState :=
  let r := inb 0x21 io
  outb 0x21 (r.1 &&& 0xFD) r.2

/-- C6: `pic_remap` reads the two current masks, emits the exact
four-byte initialization sequence to each controller (`0x11` to each
command port, vector bases `0x20`/`0x28`, cascade bytes `4`/`2`, mode
byte `0x01` each) and writes the saved masks back; the following
`pic_unmask_keyboard` then rewrites the primary mask with exactly bit 1
(the keyboard line) cleared and every other bit as previously
configured. -/
theorem pic_remap_unmask_protocol (io : PortState) (h1 : io.latch 0x21 < 256) :
    (pic_remap io).trace = io.trace ++
      [PortEvent.rd 0x21 (io.latch 0x21), PortEvent.rd 0xA1 (io.latch 0xA1),
       PortEvent.wr 0x20 0x11, PortEvent.wr 0xA0 0x11,
       PortEvent.wr 0x21 0x20, PortEvent.wr 0xA1 0x28,
       PortEvent.wr 0x21 4, PortEvent.wr 0xA1 2,
       PortEvent.wr 0x21 0x01, PortEvent.wr 0xA1 0x01,
       PortEvent.wr 0x21 (io.latch 0x21), PortEvent.wr 0xA1 (io.latch 0xA1)] ∧
    (pic_unmask_keyboard (pic_remap io)).trace = (pic_remap io).trace ++
      [PortEvent.rd 0x21 (io.latch 0x21),
       PortEvent.wr 0x21 (io.latch 0x21 &&& 0xFD)] ∧
    Nat.testBit (io.latch 0x21 &&& 0xFD) 1 = false ∧
    (∀ i, i ≠ 1 → Nat.testBit (io.latch 0x21 &&& 0xFD) i = Nat.testBit (io.latch 0x21) i) := by
  have hlatch : (pic_remap io).latch 0x21 = io.latch 0x21 := by
    simp [pic_remap, inb, outb, setAt]
  refine ⟨?_, ?_, ?_, ?_⟩
  · simp [pic_remap, inb, outb]
  · simp only [pic_unmask_keyboard, inb, outb, hlatch]
    simp
  · rw [Nat.testBit_land]
    have h : Nat.testBit 0xFD 1 = false := by decide
    rw [h, Bool.and_false]
  · intro i hi
    rw [Nat.testBit_land]
    by_cases h8 : i < 8
    · have h : Nat.testBit 0xFD i = true := by
        interval_cases i <;> simp_all <;> decide
      rw [h, Bool.and_true]
    · have hle : 2 ^ 8 ≤ 2 ^ i := Nat.pow_le_pow_right (by omega) (by omega)
      have hfd : Nat.testBit 0xFD i = false :=
        Nat.testBit_eq_false_of_lt (by omega)
      have ha : Nat.testBit (io.latch 0x21) i = false :=
        Nat.testBit_eq_false_of_lt (by omega)
      rw [hfd, ha, Bool.and_false]

/-- A concrete port environment with all mask bits set. -/
def portEnv : PortState := ⟨fun _ => 0xFF, []⟩

theorem pic_remap_unmask_protocol_wit :
    (pic_remap portEnv).trace = portEnv.trace ++
      [PortEvent.rd 0x21 (portEnv.latch 0x21), PortEvent.rd 0xA1 (portEnv.latch 0xA1),
       PortEvent.wr 0x20 0x11, PortEvent.wr 0xA0 0x11,
       PortEvent.wr 0x21 0x20, PortEvent.wr 0xA1 0x28,
       PortEvent.wr 0x21 4, PortEvent.wr 0xA1 2,
       PortEvent.wr 0x21 0x01, PortEvent.wr 0xA1 0x01,
       PortEvent.wr 0x21 (portEnv.latch 0x21), PortEvent.wr 0xA1 (portEnv.latch 0xA1)] ∧
    (pic_unmask_keyboard (pic_remap portEnv)).trace = (pic_remap portEnv).trace ++
      [PortEvent.rd 0x21 (portEnv.latch 0x21),
       PortEvent.wr 0x21 (portEnv.latch 0x21 &&& 0xFD)] ∧
    Nat.testBit (portEnv.latch 0x21 &&& 0xFD) 1 = false ∧
    (∀ i, i ≠ 1 →
      Nat.testBit (portEnv.latch 0x21 &&& 0xFD) i = Nat.testBit (portEnv.latch 0x21) i) :=
  pic_remap_unmask_protocol portEnv (by decide)
/-! ### In-memory file store (kernel.c lines 230-302)

A slot of the static `files` table.  The `name` field holds the
characters before the NUL terminator of the 16-byte `name` array (the
store's operations keep its length at most `MAX_NAME - 1`); `data` is
the 512-byte buffer. -/

structure file_entry where
  name : List Char
  used : Bool
  size : Nat
  data : List Char
deriving DecidableEq

/-- A zeroed slot (static storage is zero-initialised). -/
def emptyEntry : file_entry := ⟨[], false, 0, List.replicate MAX_FILE_SIZE nulc⟩

/-- C-string indexing: the character at `n`, or the terminator past the
end. -/
def getC (s : List Char) (n : Nat) : Char := s.getD n nulc

/-- Comparison loop of `fs_find` (kernel.c lines 262-263): advance `k`
while `k < MAX_NAME` and both strings continue with equal characters,
then require both to be at their terminator.  The fuel is the
`k < MAX_NAME` bound; it cannot reach `0` with characters left on the
stored side, since stored names hold at most `MAX_NAME - 1` characters. -/
def nameMatch : Nat → List Char → List Char → Bool
  | _, [], [] => true
  | _ + 1, [], _ :: _ => false
  | _ + 1, _ :: _, [] => false
  | fuel + 1, a :: s, b :: q => a == b && nameMatch fuel s q
  | 0, _, _ => false

/-- The per-slot test of `fs_find`: used and name matches. -/
def entryMatches (e : file_entry) (name : List Char) : Bool :=
  e.used && nameMatch MAX_NAME e.name name

/-- `fs_find` (kernel.c lines 260-266): index of the first used slot
whose name matches, scanning in table order. -/
def fs_find : List file_entry → List Char → Option Nat
  | [], _ => none
  | e :: rest, name =>
    if entryMatches e name then some 0
    else (fs_find rest name).map (· + 1)

/-- Claim loop of `fs_create` (kernel.c lines 270-272): the first free
slot is claimed, storing at most `MAX_NAME - 1` characters of the name
(the buffer contents are not touched). -/
def fs_claim : List file_entry → List Char → Option Nat × List file_entry
  | [], _ => (none, [])
  | e :: rest, name =>
    if !e.used then
      (some 0, { e with used := true, size := 0, name := name.take (MAX_NAME - 1) } :: rest)
    else
      let r := fs_claim rest name
      (r.1.map (· + 1), e :: r.2)

/-- `fs_create` (kernel.c lines 268-274). -/
def fs_create (files : List file_entry) (name : List Char) : Option Nat × List file_entry :=
  match fs_find files name with
  | some _ => (none, files)
  | none => fs_claim files name

/-- Replace the slot at index `i` by `f` of it. -/
def setEntry : List file_entry → Nat → (file_entry → file_entry) → List file_entry
  | [], _, _ => []
  | e :: rest, 0, f => f e :: rest
  | e :: rest, i + 1, f => e :: setEntry rest i f

/-- The copy loops of `fs_write` and `fs_init`: the first `n` bytes of
the slot buffer are replaced, the rest is untouched. -/
def copyData (old data : List Char) (n : Nat) : List Char :=
  data.take n ++ old.drop n

/-- The update `fs_write` applies to the target slot: copy the first `n`
payload bytes into the buffer and set the size to `n`. -/
def writeUpd (data : List Char) (n : Nat) (e : file_entry) : file_entry :=
  { e with data := copyData e.data data n, size := n }

/-- `fs_write` (kernel.c lines 276-282): find or create the slot, then
copy `min len MAX_FILE_SIZE` bytes and set the size to that count, which
is also the return value; `-1` if the slot can neither be found nor
created. -/
def fs_write (files : List file_entry) (name data : List Char) (len : Nat) :
    Int × List file_entry :=
  let found :=
    match fs_find files name with
    | some i => (some i, files)
    | none => fs_create files name
  match found.1 with
  | none => (-1, found.2)
  | some i =>
    let n := min len MAX_FILE_SIZE
    ((n : Int), setEntry found.2 i (writeUpd data n))

/-- Slot lookup with the zeroed slot as default (never hit on the
indices returned by `fs_find`). -/
def getEntry (files : List file_entry) (i : Nat) : file_entry := files.getD i emptyEntry

/-- `fs_read_to_console` (kernel.c lines 284-289): return value and the
characters streamed to `vga_putc`. -/
def fs_read_to_console (files : List file_entry) (name : List Char) : Int × List Char :=
  match fs_find files name with
  | none => (-1, [])
  | some i =>
    (((getEntry files i).size : Int), (getEntry files i).data.take (getEntry files i).size)

/-- `fs_list` (kernel.c lines 291-296), as the `(name, size)` pairs of
the used slots in table order. -/
def fs_list (files : List file_entry) : List (List Char × Nat) :=
  (files.filter (fun e => e.used)).map (fun e => (e.name, e.size))

/-- Console output of `fs_list`. -/
def fs_list_out (files : List file_entry) : List Char :=
  "Files:\n".toList ++
  (files.filter (fun e => e.used)).flatMap
    (fun e => "  ".toList ++ e.name ++ " (".toList ++ kputi (e.size : Int) 10 ++
      " bytes)\n".toList)

/-- `fs_remove` (kernel.c lines 298-302): clear the used flag only. -/
def fs_remove (files : List file_entry) (name : List Char) : Int × List file_entry :=
  match fs_find files name with
  | none => (-1, files)
  | some i => (0, setEntry files i (fun e => { e with used := false }))

/-- First free slot, as scanned by `fs_init`. -/
def findFree : List file_entry → Option Nat
  | [] => none
  | e :: rest => if !e.used then some 0 else (findFree rest).map (· + 1)

def welcomeText : List Char := "welcome: This is MiniOS (in-memory FS)\n".toList

/-- `fs_init` (kernel.c lines 244-258): clear all used flags, then build
the welcome file in the first free slot. -/
def fs_init (files : List file_entry) : List file_entry :=
  let cleared := files.map (fun e => { e with used := false })
  match findFree cleared with
  | none => cleared
  | some i =>
    let n := min welcomeText.length MAX_FILE_SIZE
    setEntry cleared i (fun e =>
      { e with
          used := true
          data := copyData e.data welcomeText n
          size := n
          name := "welcome".toList.take (MAX_NAME - 1) })

/-- The file table at shell start: `fs_init` applied to the zeroed
static table. -/
def fs0 : List file_entry := fs_init (List.replicate MAX_FILES emptyEntry)

/-! Structural facts about `fs_find`, `fs_claim` and `setEntry`. -/

theorem fs_find_some_used (name : List Char) :
    ∀ (files : List file_entry) (i : Nat), fs_find files name = some i →
      ∃ e, files[i]? = some e ∧ e.used = true := by
  intro files
  induction files with
  | nil => intro i h; simp [fs_find] at h
  | cons e rest ih =>
    intro i h
    rw [fs_find] at h
    by_cases hm : entryMatches e name = true
    · rw [if_pos hm] at h
      injection h with h
      subst h
      refine ⟨e, by simp, ?_⟩
      rw [entryMatches, Bool.and_eq_true] at hm
      exact hm.1
    · rw [if_neg hm, Option.map_eq_some'] at h
      obtain ⟨k, hk, hki⟩ := h
      obtain ⟨e', he', hu⟩ := ih k hk
      subst hki
      exact ⟨e', by simpa using he', hu⟩

theorem fs_find_none_forall (name : List Char) :
    ∀ (files : List file_entry), fs_find files name = none →
      ∀ (j : Nat) (e : file_entry), files[j]? = some e → entryMatches e name = false := by
  intro files
  induction files with
  | nil => intro _ j e he; simp at he
  | cons e0 rest ih =>
    intro h j e' he'
    rw [fs_find] at h
    by_cases hm : entryMatches e0 name = true
    · rw [if_pos hm] at h
      exact absurd h (by simp)
    · rw [if_neg hm, Option.map_eq_none'] at h
      cases j with
      | zero =>
        rw [List.getElem?_cons_zero] at he'
        injection he' with he'
        subst he'
        exact Bool.not_eq_true _ ▸ eq_false_of_ne_true hm
      | succ k =>
        exact ih h k e' (by simpa using he')

theorem fs_find_eq_some_of (name : List Char) :
    ∀ (files : List file_entry) (i : Nat) (e : file_entry),
      files[i]? = some e → entryMatches e name = true →
      (∀ j, j < i → ∀ e', files[j]? = some e' → entryMatches e' name = false) →
      fs_find files name = some i := by
  intro files
  induction files with
  | nil => intro i e he _ _; simp at he
  | cons e0 rest ih =>
    intro i e he hm hall
    rw [fs_find]
    cases i with
    | zero =>
      rw [List.getElem?_cons_zero] at he
      injection he with he
      subst he
      rw [if_pos hm]
    | succ k =>
      have h0 : entryMatches e0 name = false := hall 0 (Nat.succ_pos k) e0 (by simp)
      have hrec : ∀ j, j < k → ∀ e', rest[j]? = some e' → entryMatches e' name = false := by
        intro j hj e' he'
        exact hall (j + 1) (by omega) e' (by simpa using he')
      have hr := ih k e (by simpa using he) hm hrec
      rw [if_neg (by simp [h0]), hr]
      rfl

theorem fs_find_eq_none_of (name : List Char) :
    ∀ (files : List file_entry),
      (∀ (j : Nat) (e : file_entry), files[j]? = some e → entryMatches e name = false) →
      fs_find files name = none := by
  intro files
  induction files with
  | nil => intro _; rfl
  | cons e0 rest ih =>
    intro hall
    have h0 : entryMatches e0 name = false := hall 0 e0 (by simp)
    rw [fs_find, if_neg (by simp [h0]),
      ih (fun j e' he' => hall (j + 1) e' (by simpa using he'))]
    rfl

theorem setEntry_get_same :
    ∀ (files : List file_entry) (i : Nat) (f : file_entry → file_entry) (e : file_entry),
      files[i]? = some e → (setEntry files i f)[i]? = some (f e) := by
  intro files
  induction files with
  | nil => intro i f e he; simp at he
  | cons e0 rest ih =>
    intro i f e he
    cases i with
    | zero =>
      rw [List.getElem?_cons_zero] at he
      injection he with he
      subst he
      rw [setEntry]
      simp
    | succ k =>
      rw [setEntry]
      simpa using ih k f e (by simpa using he)

theorem setEntry_get_other :
    ∀ (files : List file_entry) (i j : Nat) (f : file_entry → file_entry), j ≠ i →
      (setEntry files i f)[j]? = files[j]? := by
  intro files
  induction files with
  | nil => intro i j f _; simp [setEntry]
  | cons e0 rest ih =>
    intro i j f hne
    cases i with
    | zero =>
      cases j with
      | zero => exact absurd rfl hne
      | succ k => rw [setEntry]; simp
    | succ i' =>
      cases j with
      | zero => rw [setEntry]; simp
      | succ k =>
        rw [setEntry]
        simpa using ih i' k f (by omega)

theorem fs_claim_none : ∀ (files : List file_entry) (name : List Char),
    (fs_claim files name).1 = none → (fs_claim files name).2 = files := by
  intro files
  induction files with
  | nil => intro name _; rfl
  | cons e rest ih =>
    intro name h
    rw [fs_claim] at h ⊢
    by_cases hu : e.used
    · rw [if_neg (by simp [hu])] at h ⊢
      simp only [Option.map_eq_none'] at h
      simp only [List.cons.injEq, true_and]
      exact ih name (by simpa using h)
    · rw [if_pos (by simp [hu])] at h
      exact absurd h (by simp)

theorem fs_claim_some (name : List Char) : ∀ (files : List file_entry) (i : Nat),
    (fs_claim files name).1 = some i →
    ∃ e, files[i]? = some e ∧ e.used = false ∧
      (fs_claim files name).2 = setEntry files i
        (fun e => { e with used := true, size := 0, name := name.take (MAX_NAME - 1) }) := by
  intro files
  induction files with
  | nil => intro i h; simp [fs_claim] at h
  | cons e rest ih =>
    intro i h
    rw [fs_claim] at h
    by_cases hu : e.used
    · rw [if_neg (by simp [hu])] at h
      simp only [Option.map_eq_some'] at h
      obtain ⟨k, hk, hki⟩ := h
      subst hki
      obtain ⟨e', he', hu', heq⟩ := ih k hk
      refine ⟨e', by simpa using he', hu', ?_⟩
      rw [fs_claim, if_neg (by simp [hu]), setEntry]
      simp only [List.cons.injEq, true_and]
      exact heq
    · rw [if_pos (by simp [hu])] at h
      injection h with h
      subst h
      refine ⟨e, by simp, by simpa using hu, ?_⟩
      rw [fs_claim, if_pos (by simp [hu]), setEntry]

theorem fs_create_none_eq (files : List file_entry) (name : List Char)
    (h : (fs_create files name).1 = none) : (fs_create files name).2 = files := by
  rw [fs_create] at h ⊢
  cases hf : fs_find files name with
  | none =>
    rw [hf] at h
    exact fs_claim_none files name h
  | some i => rfl

theorem fs_write_eq_found (files : List file_entry) (name data : List Char) (len i : Nat)
    (hfind : fs_find files name = some i) :
    fs_write files name data len = (((min len MAX_FILE_SIZE : Nat) : Int),
      setEntry files i (writeUpd data (min len MAX_FILE_SIZE))) := by
  simp only [fs_write, hfind]

theorem fs_write_eq_created (files : List file_entry) (name data : List Char) (len i : Nat)
    (hfind : fs_find files name = none) (hclaim : (fs_claim files name).1 = some i) :
    fs_write files name data len = (((min len MAX_FILE_SIZE : Nat) : Int),
      setEntry (fs_claim files name).2 i (writeUpd data (min len MAX_FILE_SIZE))) := by
  simp only [fs_write, fs_create, hfind, hclaim]

theorem fs_write_eq_fail (files : List file_entry) (name data : List Char) (len : Nat)
    (hfind : fs_find files name = none) (hclaim : (fs_claim files name).1 = none) :
    fs_write files name data len = (-1, files) := by
  simp only [fs_write, fs_create, hfind, hclaim]
  rw [fs_claim_none files name hclaim]

theorem copyData_take (old data : List Char) (n : Nat) (h : n ≤ data.length) :
    (copyData old data n).take n = data.take n := by
  rw [copyData, List.take_append_eq_append_take, List.length_take]
  have h1 : min n data.length = n := Nat.min_eq_left h
  rw [h1, Nat.sub_self, List.take_zero, List.append_nil, List.take_take, Nat.min_self]

/-- C3: `fs_write` returns `-1` and leaves the table unchanged exactly
when the name is neither found nor creatable (table full); otherwise —
whether the slot was found or freshly created — it copies exactly
`min len MAX_FILE_SIZE` bytes of the payload into the slot, sets the
slot's size to that count, and returns it, with no separate indication
when `len` exceeds the capacity.  In particular a write of a 2-byte
payload to a nonexistent name creates the file with size 2
(witnessed below on `fs0` with name `"b"` and payload `"hi"`). -/
theorem fs_write_spec (files : List file_entry) (name data : List Char) (len : Nat)
    (hlen : len ≤ data.length) :
    (fs_find files name = none → (fs_create files name).1 = none →
      fs_write files name data len = (-1, files)) ∧
    (∀ i, (fs_find files name = some i ∨
        (fs_find files name = none ∧ (fs_create files name).1 = some i)) →
      (fs_write files name data len).1 = ((min len MAX_FILE_SIZE : Nat) : Int) ∧
      ∃ e, (fs_write files name data len).2[i]? = some e ∧ e.used = true ∧
        e.size = min len MAX_FILE_SIZE ∧
        e.data.take (min len MAX_FILE_SIZE) = data.take (min len MAX_FILE_SIZE)) := by
  constructor
  · intro hfind hcreate
    rw [fs_create, hfind] at hcreate
    exact fs_write_eq_fail files name data len hfind hcreate
  · intro i hi
    have hn : min len MAX_FILE_SIZE ≤ data.length :=
      le_trans (Nat.min_le_left _ _) hlen
    rcases hi with hfind | ⟨hfind, hcreate⟩
    · obtain ⟨e, he, hu⟩ := fs_find_some_used name files i hfind
      rw [fs_write_eq_found files name data len i hfind]
      refine ⟨rfl, ?_⟩
      refine ⟨_, setEntry_get_same files i _ e he, ?_, ?_, ?_⟩
      · exact hu
      · rfl
      · exact copyData_take e.data data _ hn
    · rw [fs_create, hfind] at hcreate
      obtain ⟨e, he, _, heq⟩ := fs_claim_some name files i hcreate
      rw [fs_write_eq_created files name data len i hfind hcreate]
      have hmid : (fs_claim files name).2[i]? =
          some { e with used := true, size := 0, name := name.take (MAX_NAME - 1) } := by
        rw [heq]
        exact setEntry_get_same files i _ e he
      refine ⟨rfl, ?_⟩
      refine ⟨_, setEntry_get_same _ i _ _ hmid, ?_, ?_, ?_⟩
      · rfl
      · rfl
      · exact copyData_take _ data _ hn

theorem fs_write_spec_wit :
    (fs_write fs0 "b".toList "hi".toList 2).1 = ((min 2 MAX_FILE_SIZE : Nat) : Int) ∧
    ∃ e, (fs_write fs0 "b".toList "hi".toList 2).2[1]? = some e ∧ e.used = true ∧
      e.size = min 2 MAX_FILE_SIZE ∧
      e.data.take (min 2 MAX_FILE_SIZE) = "hi".toList.take (min 2 MAX_FILE_SIZE) :=
  (fs_write_spec fs0 "b".toList "hi".toList 2 (by decide)).2 1
    (Or.inr ⟨by decide, by decide⟩)

/-- The file table after `create("x")`, `create("y")`, `remove("x")`
starting from the boot table `fs0`. -/
def fsC5 : List file_entry :=
  (fs_remove ((fs_create ((fs_create fs0 "x".toList).2) "y".toList).2) "x".toList).2

/-- C5 counterexample: starting from the state established by `fs_init`,
after `create("x")`, `create("y")`, `remove("x")` the listing holds TWO
entries, not exactly one — the welcome file created by `fs_init`
survives alongside `"y"`. -/
theorem fs_list_after_remove_cex : (fs_list fsC5).length = 2 := by decide

/-- C5 amended: after `create("x")`, `create("y")`, `remove("x")` from
the boot table, `list()` yields exactly the boot-time `welcome` file
(39 bytes) followed by `("y", 0)`, in table order, and nothing else. -/
theorem fs_list_after_remove :
    fs_list fsC5 = [("welcome".toList, 39), ("y".toList, 0)] := by decide
/-! Facts about repeated writes and about name truncation. -/

theorem nameMatch_self : ∀ (fuel : Nat) (s : List Char), s.length ≤ fuel →
    nameMatch fuel s s = true := by
  intro fuel
  induction fuel with
  | zero =>
    intro s h
    have h0 : s = [] := List.eq_nil_of_length_eq_zero (Nat.le_zero.mp h)
    subst h0
    rfl
  | succ fuel ih =>
    intro s h
    cases s with
    | nil => rfl
    | cons a s' =>
      show (a == a && nameMatch fuel s' s') = true
      rw [beq_self_eq_true, Bool.true_and]
      refine ih s' ?_
      simp only [List.length_cons] at h
      omega

theorem nameMatch_length_ne : ∀ (fuel : Nat) (s q : List Char), s.length ≠ q.length →
    nameMatch fuel s q = false := by
  intro fuel
  induction fuel with
  | zero =>
    intro s q h
    cases s with
    | nil =>
      cases q with
      | nil => exact absurd rfl h
      | cons b q' => rfl
    | cons a s' =>
      cases q with
      | nil => rfl
      | cons b q' => rfl
  | succ fuel ih =>
    intro s q h
    cases s with
    | nil =>
      cases q with
      | nil => exact absurd rfl h
      | cons b q' => rfl
    | cons a s' =>
      cases q with
      | nil => rfl
      | cons b q' =>
        show (a == b && nameMatch fuel s' q') = false
        rw [ih s' q' (by simp only [List.length_cons] at h; omega), Bool.and_false]

theorem fs_find_setEntry (name : List Char) (g : file_entry → file_entry)
    (hg : ∀ e, (g e).used = e.used ∧ (g e).name = e.name) :
    ∀ (files : List file_entry) (i : Nat),
      fs_find (setEntry files i g) name = fs_find files name := by
  intro files
  induction files with
  | nil => intro i; rfl
  | cons e rest ih =>
    intro i
    cases i with
    | zero =>
      rw [setEntry, fs_find, fs_find]
      have hm : entryMatches (g e) name = entryMatches e name := by
        rw [entryMatches, entryMatches, (hg e).1, (hg e).2]
      rw [hm]
    | succ k =>
      show fs_find (e :: setEntry rest k g) name = fs_find (e :: rest) name
      rw [fs_find, fs_find, ih k]

theorem setEntry_setEntry (f g : file_entry → file_entry) :
    ∀ (files : List file_entry) (i : Nat),
      setEntry (setEntry files i f) i g = setEntry files i (fun e => g (f e)) := by
  intro files
  induction files with
  | nil => intro i; rfl
  | cons e rest ih =>
    intro i
    cases i with
    | zero => rfl
    | succ k =>
      show e :: setEntry (setEntry rest k f) k g = e :: setEntry rest k (fun e => g (f e))
      rw [ih k]

theorem copyData_copyData (old data : List Char) (n : Nat) (h : n ≤ data.length) :
    copyData (copyData old data n) data n = copyData old data n := by
  rw [copyData, copyData, List.drop_append_eq_append_drop, List.length_take,
    Nat.min_eq_left h, Nat.sub_self, List.drop_zero,
    List.drop_eq_nil_of_le (by rw [List.length_take, Nat.min_eq_left h]),
    List.nil_append]

theorem writeUpd_used_name (data : List Char) (n : Nat) (e : file_entry) :
    (writeUpd data n e).used = e.used ∧ (writeUpd data n e).name = e.name :=
  ⟨rfl, rfl⟩

theorem writeUpd_idem (data : List Char) (n : Nat) (h : n ≤ data.length) (e : file_entry) :
    writeUpd data n (writeUpd data n e) = writeUpd data n e := by
  show ({ e with data := copyData (copyData e.data data n) data n, size := n } : file_entry) =
    { e with data := copyData e.data data n, size := n }
  rw [copyData_copyData e.data data n h]

/-- Writing the same payload and length twice through `fs_write` yields
the same return value and the same file table, provided the name fits in
a stored slot name. -/
theorem fs_write_idem (files : List file_entry) (name data : List Char) (len : Nat)
    (hname : name.length ≤ MAX_NAME - 1) (hlen : len ≤ data.length) :
    fs_write (fs_write files name data len).2 name data len =
      fs_write files name data len := by
  have hn : min len MAX_FILE_SIZE ≤ data.length := le_trans (Nat.min_le_left _ _) hlen
  have hgg : (fun e => writeUpd data (min len MAX_FILE_SIZE)
      (writeUpd data (min len MAX_FILE_SIZE) e)) = writeUpd data (min len MAX_FILE_SIZE) :=
    funext (writeUpd_idem data _ hn)
  cases hfind : fs_find files name with
  | some i =>
    rw [fs_write_eq_found files name data len i hfind]
    change fs_write (setEntry files i (writeUpd data (min len MAX_FILE_SIZE)))
      name data len = _
    have h2 : fs_find (setEntry files i (writeUpd data (min len MAX_FILE_SIZE))) name =
        some i := by
      rw [fs_find_setEntry name _ (writeUpd_used_name data _) files i]
      exact hfind
    rw [fs_write_eq_found _ name data len i h2, setEntry_setEntry, hgg]
  | none =>
    cases hclaim : (fs_claim files name).1 with
    | none =>
      rw [fs_write_eq_fail files name data len hfind hclaim]
      change fs_write files name data len = _
      rw [fs_write_eq_fail files name data len hfind hclaim]
    | some i =>
      obtain ⟨e, he, hu, heq⟩ := fs_claim_some name files i hclaim
      have hEi : (fs_claim files name).2[i]? =
          some { e with used := true, size := 0, name := name.take (MAX_NAME - 1) } := by
        rw [heq]
        exact setEntry_get_same files i _ e he
      rw [fs_write_eq_created files name data len i hfind hclaim]
      change fs_write (setEntry (fs_claim files name).2 i
        (writeUpd data (min len MAX_FILE_SIZE))) name data len = _
      have htake : name.take (MAX_NAME - 1) = name := List.take_of_length_le hname
      have hfind2 : fs_find (setEntry (fs_claim files name).2 i
          (writeUpd data (min len MAX_FILE_SIZE))) name = some i := by
        refine fs_find_eq_some_of name _ i _
          (setEntry_get_same _ i _ _ hEi) ?_ ?_
        · rw [entryMatches]
          show ((true : Bool) && nameMatch MAX_NAME (name.take (MAX_NAME - 1)) name) = true
          rw [htake, Bool.true_and]
          refine nameMatch_self MAX_NAME name ?_
          simp only [MAX_NAME] at hname ⊢
          omega
        · intro j hj e' he'
          rw [setEntry_get_other _ i j _ (by omega), heq,
            setEntry_get_other files i j _ (by omega)] at he'
          exact fs_find_none_forall name files hfind j e' he'
      rw [fs_write_eq_found _ name data len i hfind2, setEntry_setEntry, hgg]

/-- C10 amended: when `fs_create` succeeds on a name of `MAX_NAME` or
more characters and no used slot already bears the 15-character
truncation, the new slot stores exactly the first `MAX_NAME - 1`
characters, an immediately following `fs_find` with the original full
name reports not-found, and `fs_find` with the truncated name returns
the newly created slot. -/
theorem fs_create_truncates (files : List file_entry) (name : List Char) (i : Nat)
    (hlong : MAX_NAME ≤ name.length)
    (hsucc : (fs_create files name).1 = some i)
    (hpre : fs_find files (name.take (MAX_NAME - 1)) = none) :
    (∃ e, (fs_create files name).2[i]? = some e ∧ e.name = name.take (MAX_NAME - 1)) ∧
    fs_find (fs_create files name).2 name = none ∧
    fs_find (fs_create files name).2 (name.take (MAX_NAME - 1)) = some i := by
  have hfind : fs_find files name = none := by
    cases hf : fs_find files name with
    | none => rfl
    | some j => rw [fs_create, hf] at hsucc; exact absurd hsucc (by simp)
  have hcr : fs_create files name = fs_claim files name := by
    rw [fs_create, hfind]
  rw [hcr] at hsucc ⊢
  obtain ⟨e, he, hu, heq⟩ := fs_claim_some name files i hsucc
  have hEi : (fs_claim files name).2[i]? =
      some { e with used := true, size := 0, name := name.take (MAX_NAME - 1) } := by
    rw [heq]
    exact setEntry_get_same files i _ e he
  refine ⟨⟨_, hEi, rfl⟩, ?_, ?_⟩
  · refine fs_find_eq_none_of name _ ?_
    intro j e' he'
    by_cases hj : j = i
    · subst hj
      rw [hEi] at he'
      injection he' with he'
      subst he'
      rw [entryMatches]
      have hne : nameMatch MAX_NAME (name.take (MAX_NAME - 1)) name = false := by
        refine nameMatch_length_ne MAX_NAME _ _ ?_
        rw [List.length_take]
        simp only [MAX_NAME] at hlong ⊢
        omega
      rw [hne, Bool.and_false]
    · rw [heq, setEntry_get_other files i j _ hj] at he'
      exact fs_find_none_forall name files hfind j e' he'
  · refine fs_find_eq_some_of _ _ i _ hEi ?_ ?_
    · rw [entryMatches]
      show ((true : Bool) &&
        nameMatch MAX_NAME (name.take (MAX_NAME - 1)) (name.take (MAX_NAME - 1))) = true
      rw [Bool.true_and]
      refine nameMatch_self MAX_NAME _ ?_
      rw [List.length_take]
      simp only [MAX_NAME]
      omega
    · intro j hj e' he'
      rw [heq, setEntry_get_other files i j _ (by omega)] at he'
      exact fs_find_none_forall _ files hpre j e' he'

/-- A 16-character name, one longer than a slot can store. -/
def longA : List Char := List.replicate 16 'a'

/-- The boot table after creating a file named with 15 `'a'`s. -/
def fsA : List file_entry := (fs_create fs0 (List.replicate 15 'a')).2

/-- C10 counterexample: after creating a file named with 15 `'a'`s and
then one named with 16 `'a'`s (stored truncated to the same 15
characters), `fs_find` with the truncated name returns the OLD slot 1,
not the newly created slot 2 — so "finds the newly created slot" fails
when a slot with the truncated name already exists. -/
theorem fs_create_truncates_cex :
    (fs_create fsA longA).1 = some 2 ∧
    fs_find (fs_create fsA longA).2 (longA.take (MAX_NAME - 1)) = some 1 := by
  constructor
  · decide
  · decide

theorem fs_create_truncates_wit :
    (∃ e, (fs_create fs0 longA).2[1]? = some e ∧ e.name = longA.take (MAX_NAME - 1)) ∧
    fs_find (fs_create fs0 longA).2 longA = none ∧
    fs_find (fs_create fs0 longA).2 (longA.take (MAX_NAME - 1)) = some 1 :=
  fs_create_truncates fs0 longA 1 (by decide) (by decide) (by decide)

/-! ### Line editor (kernel.c lines 304-361)

One iteration of the `nano_edit` session loop is embedded as a step
function on the session state (the `buf`/`len` pair) and the file table.
The `edit>` prompt and the initial banner are not part of the step
output. -/

structure NanoSt where
  buf : List Char
  len : Nat
deriving DecidableEq

/-- Session initialisation of `nano_edit` (kernel.c lines 306-312): seed
the edit buffer from the file when present (the uninitialised local
`buf[MAX_FILE_SIZE]` is modelled as zero bytes; only the first `len`
bytes are ever consumed). -/
def nano_init (files : List file_entry) (filename : List Char) : NanoSt :=
  match fs_find files filename with
  | none => ⟨List.replicate MAX_FILE_SIZE nulc, 0⟩
  | some i =>
    let len := min (getEntry files i).size MAX_FILE_SIZE
    ⟨copyData (List.replicate MAX_FILE_SIZE nulc) (getEntry files i).data len, len⟩

def nanoHelpText : List Char :=
  ("Editor commands:\n" ++
   "  .help - show this message\n" ++
   "  .save - save to file\n" ++
   "  .wq   - write and quit\n" ++
   "  .quit - quit without saving\n").toList

/-- The `Saved %d bytes` / `Save failed` report of `.save` and `.wq`. -/
def saveMsg (r : Int) : List Char :=
  if r < 0 then "Save failed\n".toList
  else "Saved ".toList ++ kputi r 10 ++ " bytes\n".toList

/-- Append loop of `nano_edit` (kernel.c lines 353-355): copy characters
while the buffer has room; on overflow report `Buffer full` once and
stop. -/
def appendLoop : List Char → Nat → List Char → List Char × Nat × List Char
  | buf, len, [] => (buf, len, [])
  | buf, len, c :: rest =>
    if len < MAX_FILE_SIZE then appendLoop (buf.set len c) (len + 1) rest
    else (buf, len, "Buffer full\n".toList)

/-- One iteration of the `nano_edit` loop body (kernel.c lines 323-358)
on one input line: the new file table, the new buffer state, the console
output, and whether the session ends. -/
def nano_step (filename : List Char) (files : List file_entry) (st : NanoSt)
    (line : List Char) : List file_entry × NanoSt × List Char × Bool :=
  if getC line 0 == nulc then (files, st, [], false)
  else if getC line 0 == '.' then
    if getC line 1 == nulc then (files, st, [], false)
    else if getC line 1 == 'h' && getC line 2 == 'e' && getC line 3 == 'l' &&
        getC line 4 == 'p' && getC line 5 == nulc then
      (files, st, nanoHelpText, false)
    else if getC line 1 == 's' && getC line 2 == 'a' && getC line 3 == 'v' &&
        getC line 4 == 'e' && getC line 5 == nulc then
      let w := fs_write files filename st.buf st.len
      (w.2, st, saveMsg w.1, false)
    else if getC line 1 == 'w' && getC line 2 == 'q' && getC line 3 == nulc then
      let w := fs_write files filename st.buf st.len
      (w.2, st, saveMsg w.1, true)
    else if getC line 1 == 'q' && getC line 2 == nulc then
      (files, st, "Quit without saving\n".toList, true)
    else (files, st, "Unknown editor command: ".toList ++ line ++ "\n".toList, false)
  else
    let a := appendLoop st.buf st.len line
    if a.2.1 < MAX_FILE_SIZE then
      (files, ⟨a.1.set a.2.1 '\n', a.2.1 + 1⟩, a.2.2, false)
    else
      (files, ⟨a.1, a.2.1⟩, a.2.2 ++ "Buffer full, no newline\n".toList, false)

theorem nano_step_save (filename : List Char) (files : List file_entry) (st : NanoSt) :
    nano_step filename files st ".save".toList =
      ((fs_write files filename st.buf st.len).2, st,
        saveMsg (fs_write files filename st.buf st.len).1, false) := rfl

/-- C9 amended: two consecutive `.save` commands in one editor session
invoke `fs_write` twice with the same buffer and length; provided the
session's filename fits in a stored slot name (at most `MAX_NAME - 1`
characters), the file table, the editor state, the console report (and
hence the reported byte count) after the second save are identical to
those after the first, and neither save ends the session. -/
theorem nano_save_idem (filename : List Char) (files : List file_entry) (st : NanoSt)
    (hname : filename.length ≤ MAX_NAME - 1) (hlen : st.len ≤ st.buf.length) :
    nano_step filename (nano_step filename files st ".save".toList).1
      (nano_step filename files st ".save".toList).2.1 ".save".toList =
    nano_step filename files st ".save".toList := by
  rw [nano_step_save filename files st]
  show ((fs_write (fs_write files filename st.buf st.len).2 filename st.buf st.len).2, st,
      saveMsg (fs_write (fs_write files filename st.buf st.len).2 filename st.buf st.len).1,
      false) =
    ((fs_write files filename st.buf st.len).2, st,
      saveMsg (fs_write files filename st.buf st.len).1, false)
  rw [fs_write_idem files filename st.buf st.len hname hlen]

theorem nano_save_idem_wit :
    nano_step "b".toList (nano_step "b".toList fs0 (nano_init fs0 "b".toList) ".save".toList).1
      (nano_step "b".toList fs0 (nano_init fs0 "b".toList) ".save".toList).2.1 ".save".toList =
    nano_step "b".toList fs0 (nano_init fs0 "b".toList) ".save".toList :=
  nano_save_idem "b".toList fs0 (nano_init fs0 "b".toList) (by decide) (by decide)

/-- A file table with 15 used slots and a single free one: the boot
table plus 14 files `f0` … `f13`. -/
def fsBusy : List file_entry :=
  (List.range 14).foldl (fun fs k => (fs_create fs ('f' :: kputu k 10)).2) fs0

/-- A 16-character filename, one longer than a slot can store. -/
def longName : List Char := List.replicate 16 'n'

/-- C9 counterexample: in a session on a 16-character filename over a
table with one free slot, the first `.save` reports `Saved 0 bytes` (it
creates the file under the truncated name in the last free slot), while
the second `.save` — with the identical buffer and length — reports
`Save failed`: the full name is not found again and no free slot
remains, so the two saves do not report the same byte count. -/
theorem nano_save_idem_cex :
    (nano_step longName fsBusy (nano_init fsBusy longName) ".save".toList).2.2.1 =
      "Saved 0 bytes\n".toList ∧
    (nano_step longName
        (nano_step longName fsBusy (nano_init fsBusy longName) ".save".toList).1
        (nano_step longName fsBusy (nano_init fsBusy longName) ".save".toList).2.1
        ".save".toList).2.2.1 = "Save failed\n".toList ∧
    ¬ (nano_step longName
        (nano_step longName fsBusy (nano_init fsBusy longName) ".save".toList).1
        (nano_step longName fsBusy (nano_init fsBusy longName) ".save".toList).2.1
        ".save".toList).2.2.1 =
      (nano_step longName fsBusy (nano_init fsBusy longName) ".save".toList).2.2.1 := by
  refine ⟨?_, ?_, ?_⟩
  · decide
  · decide
  · decide
/-! ### Command interpreter (kernel.c lines 363-415)

`run_command` on one newline-stripped line: the console output, the new
file table, and the screen/editor effect (clearing the screen or
entering a `nano_edit` session, neither of which prints by itself). -/

/-- `skip_spaces` (kernel.c line 364). -/
def skip_spaces (s : List Char) : List Char := s.dropWhile (fun c => c == ' ')

inductive REffect where
  | noeff : REffect
  | clear : REffect
  | nano : List Char → REffect
deriving DecidableEq

structure RunRes where
  out : List Char
  files : List file_entry
  eff : REffect

/-- The `help` banner (kernel.c lines 371-381). -/
def helpText : List Char :=
  ("Available commands:\n" ++
   "  help           - show this message\n" ++
   "  clear          - clear the screen\n" ++
   "  echo <text>    - echo text\n" ++
   "  version        - show kernel version\n" ++
   "  ls             - list files\n" ++
   "  cat <file>     - show file contents\n" ++
   "  write <file> <text> - write text to file (overwrite)\n" ++
   "  touch <file>   - create empty file\n" ++
   "  rm <file>      - remove file\n" ++
   "  nano <file>    - edit/create a file with simple editor\n").toList

/-- The dispatch chain of `run_command` on the pointer `p` past the
leading spaces, with the source's fixed-prefix character comparisons
(`p[k]` is `getC p k`, reading the terminator at the end of the line). -/
def run_command_go (files : List file_entry) (p : List Char) : RunRes :=
  if getC p 0 == nulc then ⟨[], files, REffect.noeff⟩
  else if getC p 0 == 'h' && getC p 1 == 'e' && getC p 2 == 'l' && getC p 3 == 'p' &&
      getC p 4 == nulc then ⟨helpText, files, REffect.noeff⟩
  else if getC p 0 == 'n' && getC p 1 == 'a' && getC p 2 == 'n' && getC p 3 == 'o' &&
      (getC p 4 == nulc || getC p 4 == ' ') then
    let arg := skip_spaces (p.drop 4)
    if getC arg 0 == nulc then ⟨"Usage: nano <file>\n".toList, files, REffect.noeff⟩
    else ⟨[], files, REffect.nano arg⟩
  else if getC p 0 == 'c' && getC p 1 == 'l' && getC p 2 == 'e' && getC p 3 == 'a' &&
      getC p 4 == 'r' && (getC p 5 == nulc || getC p 5 == ' ') then
    ⟨[], files, REffect.clear⟩
  else if getC p 0 == 'v' && getC p 1 == 'e' && getC p 2 == 'r' && getC p 3 == 's' &&
      getC p 4 == 'i' && getC p 5 == 'o' && getC p 6 == 'n' &&
      (getC p 7 == nulc || getC p 7 == ' ') then
    ⟨"MiniOS version 0.2\n".toList, files, REffect.noeff⟩
  else if getC p 0 == 'e' && getC p 1 == 'c' && getC p 2 == 'h' && getC p 3 == 'o' &&
      (getC p 4 == nulc || getC p 4 == ' ') then
    ⟨skip_spaces (p.drop 4) ++ "\n".toList, files, REffect.noeff⟩
  else if getC p 0 == 'l' && getC p 1 == 's' && (getC p 2 == nulc || getC p 2 == ' ') then
    ⟨fs_list_out files, files, REffect.noeff⟩
  else if getC p 0 == 'c' && getC p 1 == 'a' && getC p 2 == 't' && getC p 3 == ' ' then
    let arg := skip_spaces (p.drop 4)
    if getC arg 0 == nulc then ⟨"Usage: cat <file>\n".toList, files, REffect.noeff⟩
    else
      let r := fs_read_to_console files arg
      if r.1 < 0 then ⟨"No such file: ".toList ++ arg ++ "\n".toList, files, REffect.noeff⟩
      else ⟨r.2 ++ "\n".toList, files, REffect.noeff⟩
  else if getC p 0 == 't' && getC p 1 == 'o' && getC p 2 == 'u' && getC p 3 == 'c' &&
      getC p 4 == 'h' && getC p 5 == ' ' then
    let arg := skip_spaces (p.drop 6)
    if getC arg 0 == nulc then ⟨"Usage: touch <file>\n".toList, files, REffect.noeff⟩
    else
      let r := fs_create files arg
      match r.1 with
      | none => ⟨"Cannot create file: ".toList ++ arg ++ "\n".toList, r.2, REffect.noeff⟩
      | some _ => ⟨[], r.2, REffect.noeff⟩
  else if getC p 0 == 'r' && getC p 1 == 'm' && getC p 2 == ' ' then
    let arg := skip_spaces (p.drop 3)
    if getC arg 0 == nulc then ⟨"Usage: rm <file>\n".toList, files, REffect.noeff⟩
    else
      let r := fs_remove files arg
      if r.1 < 0 then ⟨"No such file: ".toList ++ arg ++ "\n".toList, r.2, REffect.noeff⟩
      else ⟨[], r.2, REffect.noeff⟩
  else if getC p 0 == 'w' && getC p 1 == 'r' && getC p 2 == 'i' && getC p 3 == 't' &&
      getC p 4 == 'e' && getC p 5 == ' ' then
    let arg := skip_spaces (p.drop 6)
    if getC arg 0 == nulc then ⟨"Usage: write <file> <text>\n".toList, files, REffect.noeff⟩
    else
      let fname := (arg.takeWhile (fun c => !(c == ' '))).take (MAX_NAME - 1)
      let rest := skip_spaces (arg.drop fname.length)
      if getC fname 0 == nulc then ⟨"Invalid file name\n".toList, files, REffect.noeff⟩
      else if getC rest 0 == nulc then ⟨"No text provided\n".toList, files, REffect.noeff⟩
      else
        let w := fs_write files fname rest rest.length
        if w.1 < 0 then ⟨"Failed to write file\n".toList, w.2, REffect.noeff⟩
        else ⟨"Wrote ".toList ++ kputi w.1 10 ++ " bytes to ".toList ++ fname ++
          "\n".toList, w.2, REffect.noeff⟩
  else ⟨"Unknown command: ".toList ++ p ++ "\n".toList, files, REffect.noeff⟩

/-- `run_command` (kernel.c lines 367-415): skip leading spaces, then
dispatch. -/
def run_command (files : List file_entry) (line : List Char) : RunRes :=
  run_command_go files (skip_spaces line)

theorem skip_spaces_spaces (k : Nat) : skip_spaces (List.replicate k ' ') = [] := by
  induction k with
  | zero => rfl
  | succ k ih =>
    rw [List.replicate_succ, skip_spaces, List.dropWhile_cons, if_pos (by decide)]
    exact ih

theorem run_command_cat_spaces (files : List file_entry) (k : Nat) :
    run_command files ("cat ".toList ++ List.replicate k ' ') =
      ⟨"Usage: cat <file>\n".toList, files, REffect.noeff⟩ := by
  have h2 : run_command files ("cat ".toList ++ List.replicate k ' ') =
      (if getC (skip_spaces (List.replicate k ' ')) 0 == nulc
        then (⟨"Usage: cat <file>\n".toList, files, REffect.noeff⟩ : RunRes)
        else
          if (fs_read_to_console files (skip_spaces (List.replicate k ' '))).1 < 0 then
            ⟨"No such file: ".toList ++ skip_spaces (List.replicate k ' ') ++ "\n".toList,
              files, REffect.noeff⟩
          else ⟨(fs_read_to_console files (skip_spaces (List.replicate k ' '))).2 ++
            "\n".toList, files, REffect.noeff⟩) := rfl
  rw [h2, skip_spaces_spaces k]
  rfl

theorem run_command_touch_spaces (files : List file_entry) (k : Nat) :
    run_command files ("touch ".toList ++ List.replicate k ' ') =
      ⟨"Usage: touch <file>\n".toList, files, REffect.noeff⟩ := by
  have h2 : run_command files ("touch ".toList ++ List.replicate k ' ') =
      (if getC (skip_spaces (List.replicate k ' ')) 0 == nulc
        then (⟨"Usage: touch <file>\n".toList, files, REffect.noeff⟩ : RunRes)
        else
          match (fs_create files (skip_spaces (List.replicate k ' '))).1 with
          | none => ⟨"Cannot create file: ".toList ++ skip_spaces (List.replicate k ' ') ++
              "\n".toList, (fs_create files (skip_spaces (List.replicate k ' '))).2,
              REffect.noeff⟩
          | some _ => ⟨[], (fs_create files (skip_spaces (List.replicate k ' '))).2,
              REffect.noeff⟩) := rfl
  rw [h2, skip_spaces_spaces k]
  rfl

/-- C4 amended: with at least one space after the command word and no
argument, `cat` and `touch` print exactly their usage message; but when
the line is exactly the bare command word (no trailing space), the `cat`
branch requires `p[3] == ' '` and the `touch` branch `p[5] == ' '`, so
neither matches and `run_command` prints `Unknown command: <word>`
instead of the usage message. -/
theorem run_command_missing_arg (files : List file_entry) (k : Nat) :
    (run_command files ("cat ".toList ++ List.replicate k ' ')).out =
      "Usage: cat <file>\n".toList ∧
    (run_command files ("touch ".toList ++ List.replicate k ' ')).out =
      "Usage: touch <file>\n".toList ∧
    (run_command files "cat".toList).out = "Unknown command: cat\n".toList ∧
    (run_command files "touch".toList).out = "Unknown command: touch\n".toList := by
  refine ⟨?_, ?_, rfl, rfl⟩
  · rw [run_command_cat_spaces files k]
  · rw [run_command_touch_spaces files k]

/-- C4 counterexample: on the line that is exactly `cat` (and likewise
`touch`), `run_command` prints `Unknown command`, not the usage message
the claim requires for the bare command word. -/
theorem run_command_missing_arg_cex :
    (run_command fs0 "cat".toList).out = "Unknown command: cat\n".toList ∧
    (run_command fs0 "touch".toList).out = "Unknown command: touch\n".toList ∧
    ¬ (run_command fs0 "cat".toList).out = "Usage: cat <file>\n".toList ∧
    ¬ (run_command fs0 "touch".toList).out = "Usage: touch <file>\n".toList := by
  refine ⟨rfl, rfl, by decide, by decide⟩
